import Mathlib

/-!
Verification of the github-coding-agent-tracker repository.

The repository has two independent programs connected only by CSV files:

* `src/fetch.ts` (collector): for each date in a CLI-given inclusive range it
  counts public GitHub commits in 24 one-hour UTC windows (summed into a daily
  total) plus one count per agent query, retrying on rate-limit signals, and
  writes `data/YYYY-MM-DD.csv`.
* `src/chart.ts` (reporter): reads all `data/*.csv` files, computes per-date
  agent percentages, renders a chart, and splices a monthly-average markdown
  table between two sentinel comments in `README.md`.

Modelling conventions used throughout this file:

* JavaScript `Map` objects are modelled as insertion-ordered association
  lists (`JMap`), with `jget`/`jset` mirroring `Map.get`/`Map.set`
  (`set` on an existing key updates in place, otherwise appends).
* JavaScript `Date` values are (internally) numbers; since the collector only
  manipulates whole UTC days and whole hours, timestamps are modelled as
  natural numbers counting hours since an epoch, so calendar day `d` spans
  hours `[24*d, 24*(d+1))` and `YYYY-MM-DDT00:00:00Z` of day `d` is `24*d`.
* Counts returned by the search API are natural numbers; percentages computed
  by the reporter are modelled in `ℚ` (the JS program uses binary doubles;
  all quantities involved are exact small decimals).
* `process.exit(1)` paths are modelled with `Except Unit` / `Option`.
-/

namespace Tracker

/-! ## JavaScript `Map` as an insertion-ordered association list -/

/-- Insertion-ordered association list with string keys, modelling a JS `Map`. -/
abbrev JMap (α : Type) : Type := List (String × α)

/-- Model of `Map.get`: first entry with the given key (keys are unique by `jset`). -/
def jget {α : Type} (m : JMap α) (k : String) : Option α :=
  (m.find? (fun p => p.1 = k)).map (·.2)

/-- Model of `Map.set`: update in place if the key is present, otherwise append. -/
def jset {α : Type} (m : JMap α) (k : String) (v : α) : JMap α :=
  if (m.find? (fun p => p.1 = k)).isSome then
    m.map (fun p => if p.1 = k then (k, v) else p)
  else
    m ++ [(k, v)]

/-! ## Agent definitions (`src/agents.ts`) -/

/-- An agent definition: display name, CSV key, GitHub search query fragment. -/
structure Agent where
  name : String
  key : String
  query : String
deriving DecidableEq

/-- The static agent list `AGENTS` from `src/agents.ts`, in source order. -/
def AGENTS : List Agent := [
  ⟨"Claude Code", "claude", "noreply@anthropic.com"⟩,
  ⟨"GitHub Copilot", "copilot", "author:copilot-swe-agent[bot]"⟩,
  ⟨"Devin AI", "devin", "author:devin-ai-integration[bot]"⟩,
  ⟨"Aider", "aider", "aider.chat"⟩,
  ⟨"OpenAI Codex", "codex", "author:chatgpt-codex-connector[bot]"⟩,
  ⟨"OpenCode", "opencode", "noreply@opencode.ai"⟩,
  ⟨"Cursor (Editor)", "cursor_editor", "cursoragent@cursor.com"⟩,
  ⟨"Cursor (Background)", "cursor_bg", "author-email:agent@cursor.com"⟩,
  ⟨"Google Jules", "jules", "author:google-labs-jules[bot]"⟩,
  ⟨"Amazon Q", "amazonq", "author:amazon-q-developer[bot]"⟩]

/-! ## Collector (`src/fetch.ts`)

Timestamps are hours since an epoch; calendar day `d` starts at hour `24*d`.
-/

/-- Model of `String(h).padStart(2, "0")` for the two-digit hour labels. -/
def pad2 (h : Nat) : String :=
  if h < 10 then "0" ++ toString h else toString h

/-- Key under which a one-hour window's sub-count is stored: `total_hh`. -/
def winKey (h : Nat) : String := "total_" ++ pad2 h

/-- A one-hour search window: CSV key, start hour, end hour (exclusive). -/
structure Window where
  key : String
  start : Nat
  stop : Nat
deriving DecidableEq

/-- Model of `buildTimeWindows` from `src/fetch.ts`: the 24 hourly windows of day `d`.
Hour `h < 23` ends at `dateThh+1:00:00Z`; hour 23 ends at the next day's
`T00:00:00Z`, which is hour `24*(d+1)`. -/
def buildTimeWindows (d : Nat) : List Window :=
  (List.range 24).map (fun h =>
    ⟨winKey h, 24 * d + h, if h < 23 then 24 * d + (h + 1) else 24 * (d + 1)⟩)

/-- A query issued against the search endpoint: either a windowed total-commit
count (`is:public committer-date:start..end`) or an agent count
(`is:public <agent.query> committer-date:<date>`). -/
inductive Query where
  | totalWin (start stop : Nat)
  | agentQ (fragment : String) (date : Nat)
deriving DecidableEq

/-- One endpoint response to an attempt of a single request: a primary
rate-limit signal, a secondary rate-limit signal, or a success carrying the
approximate `total_count`. -/
inductive Resp where
  | primary
  | secondary
  | success (n : Nat)
deriving DecidableEq

/-- The `onRateLimit` throttle callback from `src/fetch.ts`: retry exactly
when fewer than 3 retries have already happened (`retryCount < 3`). -/
def onRateLimitSrc (retryCount : Nat) : Bool := retryCount < 3

/-- The `onSecondaryRateLimit` throttle callback: same ceiling. -/
def onSecondarySrc (retryCount : Nat) : Bool := retryCount < 3

/-- The throttling plugin's per-request loop: consume the endpoint's scripted
responses; on a throttle signal consult the matching callback with the current
retry count and retry (incrementing it) if the callback returns `true`;
otherwise the request fails. Returns the count and the number of retries
used. An exhausted script also fails. -/
def runRequest : List Resp → Nat → Option (Nat × Nat)
  | [], _ => none
  | .success n :: _, rc => some (n, rc)
  | .primary :: rest, rc =>
      if onRateLimitSrc rc then runRequest rest (rc + 1) else none
  | .secondary :: rest, rc =>
      if onSecondarySrc rc then runRequest rest (rc + 1) else none

/-- An endpoint mock: for each query, the scripted sequence of responses to
the successive attempts of that request. -/
abbrev Endpoint : Type := Query → List Resp

/-- The window-fetch loop inside `fetchDay`: for each window issue the total
query, store the sub-count under the window's key and add it to the running
total. Any failed request aborts the whole day. -/
def fetchWindows (ep : Endpoint) : List Window → JMap Nat → Nat → Option (JMap Nat × Nat)
  | [], m, t => some (m, t)
  | w :: ws, m, t =>
    match runRequest (ep (.totalWin w.start w.stop)) 0 with
    | none => none
    | some (c, _) => fetchWindows ep ws (jset m w.key c) (t + c)

/-- The agent-fetch loop inside `fetchDay`: one query per agent, stored under
the agent's key. -/
def fetchAgents (ep : Endpoint) (d : Nat) : List Agent → JMap Nat → Option (JMap Nat)
  | [], m => some m
  | a :: rest, m =>
    match runRequest (ep (.agentQ a.query d)) 0 with
    | none => none
    | some (c, _) => fetchAgents ep d rest (jset m a.key c)

/-- Model of `fetchDay` from `src/fetch.ts`: fetch the 24 hourly sub-counts, store the
sum under `"total"`, then fetch one count per agent. -/
def fetchDay (ep : Endpoint) (d : Nat) : Option (JMap Nat) :=
  match fetchWindows ep (buildTimeWindows d) [] 0 with
  | none => none
  | some (m, total) => fetchAgents ep d AGENTS (jset m "total" total)

/-- The list of all queries `fetchDay` issues for day `d`
(24 windows, then one per agent). -/
def queriesOf (d : Nat) : List Query :=
  (buildTimeWindows d).map (fun w => Query.totalWin w.start w.stop) ++
    AGENTS.map (fun a => Query.agentQ a.query d)

/-- A persisted record file, as written by `writeCSV`: the date and the
`(query, count)` rows. A `none` count models `counts.get(...)` being
`undefined` (cannot happen after a successful `fetchDay`). -/
structure CsvFile where
  date : Nat
  rows : List (String × Option Nat)
deriving DecidableEq

/-- Model of `writeCSV` from `src/fetch.ts`: one row for the total, then one row per
agent key, in `AGENTS` order. -/
def writeCSV (d : Nat) (m : JMap Nat) : CsvFile :=
  ⟨d, ("total", jget m "total") :: AGENTS.map (fun a => (a.key, jget m a.key))⟩

/-- The fetch loop in `main` of `src/fetch.ts`: process dates strictly in
order; after each successful `fetchDay` immediately write that date's file; a
failed `fetchDay` aborts the run, leaving the earlier dates' files written.
Returns the files written and `some ()` if the run aborted. -/
def fetchLoop (ep : Endpoint) : List Nat → List CsvFile × Option Unit
  | [] => ([], none)
  | d :: rest =>
    match fetchDay ep d with
    | none => ([], some ())
    | some m =>
      let pr := fetchLoop ep rest
      (writeCSV d m :: pr.1, pr.2)

/-- The inclusive day range `start..end` produced by the `while current <=
last` loop of `parseDateRange`; empty when `s > e`. -/
def rangeClosed (s e : Nat) : List Nat :=
  (List.range (e + 1 - s)).map (fun i => s + i)

/-- Model of `parseDateRange` from `src/fetch.ts`: no arguments is a usage error
(`process.exit(1)`); one argument is the one-day range; with two arguments the
second is the end of the inclusive range. -/
def parseDateRange (args : List Nat) : Except Unit (List Nat) :=
  match args with
  | [] => .error ()
  | s :: rest => .ok (rangeClosed s (rest.headD s))

/-- Model of `main` from `src/fetch.ts`: a missing `GITHUB_TOKEN` is a usage error;
otherwise parse the date range and run the fetch loop. -/
def mainFetch (tokenPresent : Bool) (ep : Endpoint) (args : List Nat) :
    Except Unit (List CsvFile × Option Unit) :=
  if tokenPresent then (parseDateRange args).map (fetchLoop ep) else .error ()

/-! ## Endpoint mocks used in concrete scenarios -/

/-- Endpoint mock that always succeeds immediately with count 7. -/
def epConst : Endpoint := fun _ => [Resp.success 7]

/-- Endpoint mock for the retry scenario: the Claude agent query is throttled
twice (primary rate limit) and then succeeds with count 42; every other query
succeeds immediately with count 10. -/
def epRetryTwice : Endpoint := fun q =>
  match q with
  | .agentQ "noreply@anthropic.com" _ => [.primary, .primary, .success 42]
  | _ => [.success 10]

/-- Endpoint mock whose every request is throttled four times in a row (a
fifth response would succeed, but the retry ceiling is reached first). -/
def epThrottled4 : Endpoint := fun _ =>
  [.primary, .primary, .primary, .primary, .success 99]

/-- Endpoint mock for the C3 witness: every query about day 0 succeeds, every
query about day 1 or later is throttled past the ceiling. -/
def epFailsDay1 : Endpoint := fun q =>
  match q with
  | .totalWin s _ => if s < 24 then [.success 3] else [.primary, .primary, .primary, .primary]
  | .agentQ _ d => if d = 0 then [.success 1] else [.secondary, .secondary, .secondary, .secondary]

/-! ## Reporter (`src/chart.ts`)

The reporter reads the CSV rows back; dates are the `YYYY-MM-DD` strings from
the rows. Percentages are rationals (`ℚ`); where a JS division by zero would
produce `NaN`, the `ℚ` convention `x / 0 = 0` applies — the theorems below
show the reachable divisions have non-zero denominators.
-/

/-- A display agent of the chart: name and the CSV keys it aggregates
(`Cursor` combines the editor and background agents). -/
structure ChartAgent where
  name : String
  keys : List String
deriving DecidableEq

/-- The list `CHART_AGENTS` from `src/chart.ts`, in source order. -/
def CHART_AGENTS : List ChartAgent := [
  ⟨"Claude Code", ["claude"]⟩,
  ⟨"GitHub Copilot", ["copilot"]⟩,
  ⟨"Cursor", ["cursor_editor", "cursor_bg"]⟩,
  ⟨"Devin AI", ["devin"]⟩,
  ⟨"Google Jules", ["jules"]⟩,
  ⟨"Aider", ["aider"]⟩,
  ⟨"OpenAI Codex", ["codex"]⟩,
  ⟨"OpenCode", ["opencode"]⟩,
  ⟨"Amazon Q", ["amazonq"]⟩]

/-- Model of `CHART_AGENTS.flatMap((a) => a.keys)`. -/
def chartAgentKeys : List String := (CHART_AGENTS.map (fun a => a.keys)).flatten

/-- One data row of a record file: the three CSV columns `date,query,count`.
(`label` is the `query` column.) -/
structure RRow where
  date : String
  label : String
  cnt : Nat
deriving DecidableEq

/-- A record file's parsed data rows (the header row is already dropped). -/
abbrev RFile : Type := List RRow

/-- The per-file parse loop shared by `loadData` and `generateTable`: walk the
rows updating `date` (last row wins) and the `rows` map. -/
def parseFileR (f : RFile) : String × JMap Nat :=
  f.foldl (fun acc r => (r.date, jset acc.2 r.label r.cnt)) ("", [])

/-- Model of `rows.get("total")` for a file. -/
def totalOf (f : RFile) : Option Nat := jget (parseFileR f).2 "total"

/-- The date variable after a file's parse loop (the last row's date). -/
def fileDate (f : RFile) : String := (parseFileR f).1

/-- The `!total || total === 0` guard, as a usability predicate: a file is
used iff its `total` row is present and non-zero. -/
def fUsable (f : RFile) : Bool :=
  match totalOf f with
  | none => false
  | some t => t ≠ 0

/-- Model of `keys.reduce((sum, k) => sum + (rows.get(k) ?? 0), 0)`. -/
def sumKeys (rows : JMap Nat) (ks : List String) : Nat :=
  ks.foldl (fun s k => s + (jget rows k).getD 0) 0

/-- A chart data point (`DataPoint` in `src/chart.ts`). -/
structure DataPoint where
  date : String
  percentage : ℚ
  totalCommits : Nat
deriving DecidableEq

/-- The per-file body of `loadData`'s loop: `none` when the file is skipped,
otherwise the pushed data point with
`percentage = (agentSum / total) * 100`. -/
def pointOf (f : RFile) : Option DataPoint :=
  match jget (parseFileR f).2 "total" with
  | none => none
  | some t =>
    if t = 0 then none
    else some ⟨(parseFileR f).1,
      ((sumKeys (parseFileR f).2 chartAgentKeys : ℚ) / (t : ℚ)) * 100, t⟩

/-- The unsorted points list accumulated by `loadData`'s file loop. -/
def loadPoints : List RFile → List DataPoint
  | [] => []
  | f :: fs =>
    match pointOf f with
    | some p => p :: loadPoints fs
    | none => loadPoints fs

/-- Lexicographic (code-unit) order on character lists: the order used by
JS `localeCompare`/default array sort on these ASCII date strings. -/
def lexLe : List Char → List Char → Bool
  | [], _ => true
  | _ :: _, [] => false
  | a :: as, b :: bs => if a < b then true else if a = b then lexLe as bs else false

/-- String comparison used for sorting dates and months. -/
def strLe (a b : String) : Bool := lexLe a.data b.data

/-- Insertion step of a stable insertion sort. -/
def insertLe {α : Type} (le : α → α → Bool) (x : α) : List α → List α
  | [] => [x]
  | y :: ys => if le x y then x :: y :: ys else y :: insertLe le x ys

/-- Stable sort modelling `Array.prototype.sort`. -/
def insSort {α : Type} (le : α → α → Bool) : List α → List α
  | [] => []
  | x :: xs => insertLe le x (insSort le xs)

/-- Model of `loadData` from `src/chart.ts`: collect the usable files' points and sort
them chronologically by date string. -/
def loadData (fs : List RFile) : List DataPoint :=
  insSort (fun a b => strLe a.date b.date) (loadPoints fs)

/-- Model of `Set.add`: append if not already present (JS `Set` keeps insertion
order). -/
def jsSetAdd (l : List String) (x : String) : List String :=
  if x ∈ l then l else l ++ [x]

/-- The three accumulators of `generateTable`'s file loop. -/
structure TState where
  perAgent : JMap (JMap ℚ)
  combined : JMap ℚ
  allDates : List String
deriving DecidableEq

/-- The per-agent update inside `generateTable`'s loop: fetch (or create) the
agent's by-date map and store this date's percentage. -/
def perAgentStep (rows : JMap Nat) (t : Nat) (date : String)
    (pa : JMap (JMap ℚ)) (a : ChartAgent) : JMap (JMap ℚ) :=
  jset pa a.name
    (jset ((jget pa a.name).getD []) date ((sumKeys rows a.keys : ℚ) / (t : ℚ) * 100))

/-- One file's effect on `generateTable`'s accumulators: skipped when the
total is missing or zero; otherwise the date is added, the combined
percentage stored, and every chart agent's by-date map updated. -/
def tstep (st : TState) (f : RFile) : TState :=
  match jget (parseFileR f).2 "total" with
  | none => st
  | some t =>
    if t = 0 then st
    else
      ⟨CHART_AGENTS.foldl (perAgentStep (parseFileR f).2 t (parseFileR f).1) st.perAgent,
       jset st.combined (parseFileR f).1
         ((sumKeys (parseFileR f).2 chartAgentKeys : ℚ) / (t : ℚ) * 100),
       jsSetAdd st.allDates (parseFileR f).1⟩

/-- The accumulators of `generateTable` after the whole file loop. -/
def tstate (fs : List RFile) : TState :=
  fs.foldl tstep ⟨[], [], []⟩

/-- Model of `sortedDates = [...allDates].sort()`. -/
def sortedDates (fs : List RFile) : List String :=
  insSort strLe (tstate fs).allDates

/-- Model of `d.slice(0, 7)`: the `YYYY-MM` month prefix of a date string. -/
def take7 (s : String) : String := ⟨s.data.take 7⟩

/-- JS `Set` dedup preserving first occurrence, with the already-seen
accumulator explicit. -/
def dedupAux : List String → List String → List String
  | _, [] => []
  | seen, x :: xs => if x ∈ seen then dedupAux seen xs else x :: dedupAux (x :: seen) xs

/-- Model of `months = [...new Set(sortedDates.map((d) => d.slice(0, 7)))].sort()`. -/
def months (fs : List RFile) : List String :=
  insSort strLe (dedupAux [] ((sortedDates fs).map take7))

/-- Boolean list-prefix test (used for `String.startsWith` and the splice). -/
def isPre : List Char → List Char → Bool
  | [], _ => true
  | _ :: _, [] => false
  | a :: as, b :: bs => a = b && isPre as bs

/-- Model of `s.startsWith(m)`. -/
def strStarts (s m : String) : Bool := isPre m.data s.data

/-- Model of `mDates = sortedDates.filter((d) => d.startsWith(m))`. -/
def monthDates (fs : List RFile) (m : String) : List String :=
  (sortedDates fs).filter (fun d => strStarts d m)

/-- Model of `ds.reduce((sum, d) => sum + (byDate.get(d) ?? 0), 0)`. -/
def sumPcts (byDate : JMap ℚ) (ds : List String) : ℚ :=
  ds.foldl (fun s d => s + (jget byDate d).getD 0) 0

/-- The monthly average `reduce(...) / mDates.length` used for every cell. -/
def monthAvg (byDate : JMap ℚ) (ds : List String) : ℚ :=
  sumPcts byDate ds / (ds.length : ℚ)

/-- Model of `x.toFixed(2)` for the non-negative percentages of this program: round to
the nearest hundredth (half up) and print with two decimals. -/
def toFixed2 (q : ℚ) : String :=
  let n := (Int.floor (q * 100 + 1 / 2)).toNat
  toString (n / 100) ++ "." ++ (if n % 100 < 10 then "0" else "") ++ toString (n % 100)

/-- One agent-row cell: the JS literal `0.005` is the rational `1/200` here.
An average below the epsilon renders as the dash placeholder. -/
def agentCell (fs : List RFile) (byDate : JMap ℚ) (m : String) : String :=
  let avg := monthAvg byDate (monthDates fs m)
  if avg < 1 / 200 then "-" else toFixed2 avg ++ "%"

/-- The cells of one agent row, one per month column. -/
def agentCells (fs : List RFile) (byDate : JMap ℚ) : List String :=
  (months fs).map (agentCell fs byDate)

/-- One combined-row cell: always rendered as a bold percentage — the
epsilon test is absent in the combined row of the source. -/
def combinedCell (fs : List RFile) (m : String) : String :=
  "**" ++ toFixed2 (monthAvg (tstate fs).combined (monthDates fs m)) ++ "%**"

/-- The cells of the combined `All Agents` row. -/
def combinedCells (fs : List RFile) : List String :=
  (months fs).map (combinedCell fs)

/-- The rendered cells of a named agent's row (empty when the agent has no
by-date map, i.e. when there are no usable files). -/
def agentRowCells (fs : List RFile) (name : String) : List String :=
  match jget (tstate fs).perAgent name with
  | none => []
  | some byDate => agentCells fs byDate

/-! ## The README table splice -/

/-- Split a document at the leftmost occurrence of `pat`: returns
`some (a, b)` with the document equal to `a ++ pat ++ b` and no earlier
occurrence, `none` when `pat` does not occur. -/
def splitOnce (pat : List Char) : List Char → Option (List Char × List Char)
  | [] => if isPre pat [] then some ([], []) else none
  | c :: rest =>
    if isPre pat (c :: rest) then some ([], (c :: rest).drop pat.length)
    else
      match splitOnce pat rest with
      | some (a, b) => some (c :: a, b)
      | none => none

/-- The start sentinel comment. -/
def startMark : List Char := "<!-- recent-table-start -->".data

/-- The end sentinel comment. -/
def endMark : List Char := "<!-- recent-table-end -->".data

/-- The README splice from `generateTable`:
`readme.replace(/<!-- recent-table-start -->[\s\S]*?<!-- recent-table-end -->/,
 "<!-- recent-table-start -->\n" + table + "\n<!-- recent-table-end -->")`.
The regex' first match starts at the leftmost start sentinel followed by an
end sentinel and extends (lazily) to the earliest such end sentinel — which,
as the leftmost start sentinel with any later end sentinel works, is exactly
the nested `splitOnce` below. No match leaves the document unchanged. -/
def spliceTable (doc t : List Char) : List Char :=
  match splitOnce startMark doc with
  | none => doc
  | some (a, rest) =>
    match splitOnce endMark rest with
    | none => doc
    | some (_b, c) =>
      a ++ startMark ++ ('\n' :: (t ++ ('\n' :: endMark))) ++ c

/-! ## Concrete record files used in scenarios -/

/-- A record whose `total` row is zero (with a non-zero agent row). -/
def demoZeroFile : RFile :=
  [⟨"2026-02-16", "total", 0⟩, ⟨"2026-02-16", "claude", 5⟩]

/-- A usable January record: total 100, claude 5. -/
def demoJan : RFile :=
  [⟨"2026-01-10", "total", 100⟩, ⟨"2026-01-10", "claude", 5⟩]

/-- A usable March record: total 100, claude 5 (no February record exists). -/
def demoMar : RFile :=
  [⟨"2026-03-10", "total", 100⟩, ⟨"2026-03-10", "claude", 5⟩]

/-- A record whose combined percentage is 0.001%, below the 0.005 epsilon. -/
def demoTiny : RFile :=
  [⟨"2026-01-10", "total", 100000⟩, ⟨"2026-01-10", "claude", 1⟩]

/-- A small generated table body (contains no sentinel or comment marker). -/
def demoTable : List Char := "| Agent | Jan 26 |".data

/-- Host-document text before the start sentinel. -/
def demoDocA : List Char := "# Title\n".data

/-- Host-document text between the sentinels. -/
def demoDocB : List Char := "\nold table\n".data

/-- Host-document text after the end sentinel. -/
def demoDocC : List Char := "\n## Caveats\n".data

/-- A concrete host document with one sentinel-delimited region. -/
def demoDoc : List Char := demoDocA ++ startMark ++ demoDocB ++ endMark ++ demoDocC

/-! ## JMap lemmas -/

@[simp] theorem jget_nil {α : Type} (k : String) : jget ([] : JMap α) k = none := rfl

theorem find?_map_of_key_fixed {α : Type} (f : String × α → String × α)
    (hf : ∀ p, (f p).1 = p.1) (k : String) (m : JMap α) :
    (m.map f).find? (fun p => p.1 = k) =
      (m.find? (fun p => p.1 = k)).map f := by
  induction m with
  | nil => rfl
  | cons p m ih =>
    by_cases hp : p.1 = k
    · simp [List.find?, hf, hp]
    · simp [List.find?, hf, hp, ih]

theorem find?_append_assoc {α : Type} (m₁ m₂ : JMap α) (k : String) :
    (m₁ ++ m₂).find? (fun p => p.1 = k) =
      ((m₁.find? (fun p => p.1 = k)).rec (m₂.find? (fun p => p.1 = k)) (fun v => some v)) := by
  induction m₁ with
  | nil => rfl
  | cons p m ih =>
    by_cases hp : p.1 = k
    · simp [List.find?, hp]
    · simp [List.find?, hp, ih]

theorem jget_jset_self {α : Type} (m : JMap α) (k : String) (v : α) :
    jget (jset m k v) k = some v := by
  unfold jget jset
  by_cases h : (m.find? (fun p => p.1 = k)).isSome
  · simp only [h, if_true]
    rw [find?_map_of_key_fixed]
    · obtain ⟨p, hp⟩ := Option.isSome_iff_exists.mp h
      have hkey : p.1 = k := by
        have := List.find?_some hp
        simpa using this
      simp [hp, hkey]
    · intro p
      by_cases hp : p.1 = k <;> simp [hp]
  · rw [if_neg h]
    rw [find?_append_assoc]
    have h0 : m.find? (fun p => p.1 = k) = none := by
      cases hfe : m.find? (fun p => p.1 = k) with
      | none => rfl
      | some p => rw [hfe] at h; simp at h
    rw [h0]
    simp [List.find?]

theorem jget_jset_ne {α : Type} (m : JMap α) (k k' : String) (v : α) (hne : k' ≠ k) :
    jget (jset m k v) k' = jget m k' := by
  unfold jget jset
  by_cases h : (m.find? (fun p => p.1 = k)).isSome
  · simp only [h, if_true]
    rw [find?_map_of_key_fixed]
    · cases hfe : m.find? (fun p => p.1 = k') with
      | none => simp [hfe]
      | some p =>
        have hkey : p.1 = k' := by
          have := List.find?_some hfe
          simpa using this
        have hne2 : ¬ p.1 = k := by rw [hkey]; exact hne
        simp [hfe, hne2]
    · intro p
      by_cases hp : p.1 = k <;> simp [hp]
  · rw [if_neg h]
    rw [find?_append_assoc]
    cases hfe : m.find? (fun p => p.1 = k') with
    | none => simp [List.find?, Ne.symm hne]
    | some p => simp

/-! ## Collector lemmas -/

theorem fetchWindows_jget_stable (ep : Endpoint) (k : String) :
    ∀ (ws : List Window) (m : JMap Nat) (t : Nat) (m' : JMap Nat) (t' : Nat),
      fetchWindows ep ws m t = some (m', t') → (∀ w ∈ ws, w.key ≠ k) →
      jget m' k = jget m k := by
  intro ws
  induction ws with
  | nil => intro m t m' t' h _; simp [fetchWindows] at h; rw [h.1]
  | cons w ws ih =>
    intro m t m' t' h hk
    unfold fetchWindows at h
    cases hr : runRequest (ep (.totalWin w.start w.stop)) 0 with
    | none => rw [hr] at h; exact absurd h (by simp)
    | some p =>
      rw [hr] at h
      have := ih (jset m w.key p.1) (t + p.1) m' t' h (fun w' hw' => hk w' (List.mem_cons_of_mem _ hw'))
      rw [this, jget_jset_ne]
      exact fun hkk => (hk w (List.mem_cons_self _ _)) hkk.symm

theorem fetchWindows_total_eq_sum (ep : Endpoint) :
    ∀ (ws : List Window) (m : JMap Nat) (t : Nat) (m' : JMap Nat) (t' : Nat),
      fetchWindows ep ws m t = some (m', t') →
      ws.Pairwise (fun w w' => w.key ≠ w'.key) →
      t' = t + (ws.map (fun w => (jget m' w.key).getD 0)).sum := by
  intro ws
  induction ws with
  | nil => intro m t m' t' h _; simp [fetchWindows] at h; simp [h.2]
  | cons w ws ih =>
    intro m t m' t' h hpw
    unfold fetchWindows at h
    cases hr : runRequest (ep (.totalWin w.start w.stop)) 0 with
    | none => rw [hr] at h; exact absurd h (by simp)
    | some p =>
      rw [hr] at h
      have hpw' := (List.pairwise_cons.mp hpw)
      have htail := ih (jset m w.key p.1) (t + p.1) m' t' h hpw'.2
      have hhead : jget m' w.key = some p.1 := by
        have := fetchWindows_jget_stable ep w.key ws (jset m w.key p.1) (t + p.1) m' t' h
          (fun w' hw' => (hpw'.1 w' hw').symm)
        rw [this, jget_jset_self]
      simp only [List.map_cons, List.sum_cons, hhead, Option.getD_some]
      omega

theorem fetchWindows_queries_succeed (ep : Endpoint) :
    ∀ (ws : List Window) (m : JMap Nat) (t : Nat),
      (fetchWindows ep ws m t).isSome →
      ∀ w ∈ ws, (runRequest (ep (.totalWin w.start w.stop)) 0).isSome := by
  intro ws
  induction ws with
  | nil => intro m t _ w hw; exact absurd hw (List.not_mem_nil w)
  | cons w ws ih =>
    intro m t h w' hw'
    unfold fetchWindows at h
    cases hr : runRequest (ep (.totalWin w.start w.stop)) 0 with
    | none => rw [hr] at h; simp at h
    | some p =>
      rw [hr] at h
      rcases List.mem_cons.mp hw' with rfl | hmem
      · rw [hr]; rfl
      · exact ih _ _ h w' hmem

theorem fetchAgents_jget_stable (ep : Endpoint) (d : Nat) (k : String) :
    ∀ (as' : List Agent) (m m' : JMap Nat),
      fetchAgents ep d as' m = some m' → (∀ a ∈ as', a.key ≠ k) →
      jget m' k = jget m k := by
  intro as'
  induction as' with
  | nil => intro m m' h _; simp [fetchAgents] at h; rw [h]
  | cons a rest ih =>
    intro m m' h hk
    unfold fetchAgents at h
    cases hr : runRequest (ep (.agentQ a.query d)) 0 with
    | none => rw [hr] at h; exact absurd h (by simp)
    | some p =>
      rw [hr] at h
      have := ih (jset m a.key p.1) m' h (fun a' ha' => hk a' (List.mem_cons_of_mem _ ha'))
      rw [this, jget_jset_ne]
      exact fun hkk => (hk a (List.mem_cons_self _ _)) hkk.symm

theorem fetchAgents_queries_succeed (ep : Endpoint) (d : Nat) :
    ∀ (as' : List Agent) (m : JMap Nat),
      (fetchAgents ep d as' m).isSome →
      ∀ a ∈ as', (runRequest (ep (.agentQ a.query d)) 0).isSome := by
  intro as'
  induction as' with
  | nil => intro m _ a ha; exact absurd ha (List.not_mem_nil a)
  | cons a rest ih =>
    intro m h a' ha'
    unfold fetchAgents at h
    cases hr : runRequest (ep (.agentQ a.query d)) 0 with
    | none => rw [hr] at h; simp at h
    | some p =>
      rw [hr] at h
      rcases List.mem_cons.mp ha' with rfl | hmem
      · rw [hr]; rfl
      · exact ih _ h a' hmem

theorem buildTimeWindows_explicit (d : Nat) :
    buildTimeWindows d =
      (List.range 24).map (fun i => ⟨winKey i, 24 * d + i, 24 * d + i + 1⟩) := by
  unfold buildTimeWindows
  apply List.map_congr_left
  intro i hi
  simp only [List.mem_range] at hi
  congr 1
  by_cases hlt : i < 23
  · rw [if_pos hlt]
    omega
  · rw [if_neg hlt]
    omega

set_option maxHeartbeats 1000000 in
theorem winKey_ne_agent_key : ∀ i < 24, ∀ a ∈ AGENTS, a.key ≠ winKey i := by decide

set_option maxHeartbeats 1000000 in
theorem winKey_ne_total : ∀ i < 24, winKey i ≠ "total" := by decide

set_option maxHeartbeats 1000000 in
theorem total_ne_agent_key : ∀ a ∈ AGENTS, a.key ≠ "total" := by decide

set_option maxHeartbeats 1000000 in
theorem winKey_inj : ∀ i < 24, ∀ j < 24, i ≠ j → winKey i ≠ winKey j := by decide

/-- C1: the `total` count that `fetchDay` stores for a date equals the sum of
the 24 one-hour window sub-counts it stored, and the 24 windows built by
`buildTimeWindows` partition the day contiguously: window `i` spans hours
`[24*d + i, 24*d + i + 1)`, each window's end is the next window's start, the
first window starts at the day's start `24*d`, and the last ends at the next
day's start `24*(d+1)`. -/
theorem fetchDay_total_is_window_sum (ep : Endpoint) (d : Nat) (m : JMap Nat)
    (h : fetchDay ep d = some m) :
    jget m "total" =
      some (((List.range 24).map (fun i => (jget m (winKey i)).getD 0)).sum)
    ∧ buildTimeWindows d =
        (List.range 24).map (fun i => ⟨winKey i, 24 * d + i, 24 * d + i + 1⟩)
    ∧ (∀ i, i + 1 < 24 →
        ((buildTimeWindows d)[i]?).map Window.stop =
          ((buildTimeWindows d)[i+1]?).map Window.start)
    ∧ ((buildTimeWindows d)[0]?).map Window.start = some (24 * d)
    ∧ ((buildTimeWindows d)[23]?).map Window.stop = some (24 * (d + 1)) := by
  have hw := buildTimeWindows_explicit d
  unfold fetchDay at h
  cases hfw : fetchWindows ep (buildTimeWindows d) [] 0 with
  | none => rw [hfw] at h; exact absurd h (by simp)
  | some pr =>
    rw [hfw] at h
    obtain ⟨m₀, T⟩ := pr
    -- values stored for the windows and the total survive the agent phase
    have hTotal : jget m "total" = some T := by
      have hstable := fetchAgents_jget_stable ep d "total" AGENTS (jset m₀ "total" T) m h
        total_ne_agent_key
      rw [hstable, jget_jset_self]
    have hWin : ∀ i < 24, jget m (winKey i) = jget m₀ (winKey i) := by
      intro i hi
      have hstable := fetchAgents_jget_stable ep d (winKey i) AGENTS (jset m₀ "total" T) m h
        (winKey_ne_agent_key i hi)
      rw [hstable, jget_jset_ne]
      exact winKey_ne_total i hi
    -- distinctness of the window keys
    have hnd : (buildTimeWindows d).Pairwise (fun w w' => w.key ≠ w'.key) := by
      rw [hw, List.pairwise_map]
      have hlt := List.pairwise_lt_range 24
      refine hlt.imp_of_mem ?_
      intro i j hi hj hij
      simp only [List.mem_range] at hi hj
      exact winKey_inj i hi j hj (Nat.ne_of_lt hij)
    have hsum := fetchWindows_total_eq_sum ep (buildTimeWindows d) [] 0 m₀ T hfw hnd
    have hT : T = ((List.range 24).map (fun i => (jget m₀ (winKey i)).getD 0)).sum := by
      rw [hsum, Nat.zero_add, hw, List.map_map]
      rfl
    have hmm : ((List.range 24).map (fun i => (jget m (winKey i)).getD 0)) =
        ((List.range 24).map (fun i => (jget m₀ (winKey i)).getD 0)) := by
      apply List.map_congr_left
      intro i hi
      simp only [List.mem_range] at hi
      rw [hWin i hi]
    refine ⟨?_, hw, ?_, ?_, ?_⟩
    · rw [hTotal, hmm, hT]
    · intro i hi
      rw [hw]
      simp only [List.getElem?_map]
      rw [List.getElem?_range (by omega : i < 24), List.getElem?_range hi]
      rfl
    · rw [hw]
      simp only [List.getElem?_map]
      rw [List.getElem?_range (by omega : (0:Nat) < 24)]
      rfl
    · rw [hw]
      simp only [List.getElem?_map]
      rw [List.getElem?_range (by omega : (23:Nat) < 24)]
      have h1 : 24 * d + 23 + 1 = 24 * (d + 1) := by omega
      rw [← h1]
      rfl


set_option maxHeartbeats 4000000 in
/-- Witness for `fetchDay_total_is_window_sum` at the always-succeeding mock
endpoint and day 1. -/
theorem fetchDay_total_is_window_sum_witness :
    jget ((fetchDay epConst 1).getD []) "total" =
      some (((List.range 24).map
        (fun i => (jget ((fetchDay epConst 1).getD []) (winKey i)).getD 0)).sum) :=
  (fetchDay_total_is_window_sum epConst 1 ((fetchDay epConst 1).getD []) (by decide)).1

/-! ## Retry behaviour (C2) -/


set_option maxHeartbeats 4000000 in
/-- C2: with the endpoint signalling a throttle twice and then succeeding, the
request completes after exactly 2 retries with the final count 42, the
collector records that count under the agent's key, and the day's record file
is written; with 4 consecutive throttle signals the request is aborted (the
`retryCount < 3` ceiling is exceeded on the 4th attempt), the run fails, and
no record file is written for the in-progress date. -/
theorem retry_twice_succeeds_four_aborts :
    runRequest (epRetryTwice (.agentQ "noreply@anthropic.com" 0)) 0 = some (42, 2)
    ∧ (fetchDay epRetryTwice 0).bind (fun m => jget m "claude") = some 42
    ∧ (fetchLoop epRetryTwice [0]).1.map CsvFile.date = [0]
    ∧ (fetchLoop epRetryTwice [0]).2 = none
    ∧ runRequest (epThrottled4 (.totalWin 0 1)) 0 = none
    ∧ fetchDay epThrottled4 0 = none
    ∧ fetchLoop epThrottled4 [0] = ([], some ()) := by
  refine ⟨rfl, by decide, by decide, by decide, rfl, by decide, by decide⟩

/-! ## Per-date write discipline (C3) -/

theorem fetchDay_queries_succeed (ep : Endpoint) (d : Nat) (m : JMap Nat)
    (h : fetchDay ep d = some m) :
    ∀ q ∈ queriesOf d, (runRequest (ep q) 0).isSome := by
  unfold fetchDay at h
  cases hfw : fetchWindows ep (buildTimeWindows d) [] 0 with
  | none => rw [hfw] at h; exact absurd h (by simp)
  | some pr =>
    rw [hfw] at h
    obtain ⟨m₀, T⟩ := pr
    have h' : fetchAgents ep d AGENTS (jset m₀ "total" T) = some m := h
    intro q hq
    unfold queriesOf at hq
    rcases List.mem_append.mp hq with hql | hqr
    · obtain ⟨w, hw, rfl⟩ := List.mem_map.mp hql
      exact fetchWindows_queries_succeed ep (buildTimeWindows d) [] 0 (by rw [hfw]; rfl) w hw
    · obtain ⟨a, ha, rfl⟩ := List.mem_map.mp hqr
      exact fetchAgents_queries_succeed ep d AGENTS (jset m₀ "total" T) (by rw [h']; rfl) a ha

theorem fetchLoop_mem_of_date (ep : Endpoint) :
    ∀ (dates : List Nat) (d' : Nat),
      d' ∈ (fetchLoop ep dates).1.map CsvFile.date →
      ∃ m, fetchDay ep d' = some m ∧ writeCSV d' m ∈ (fetchLoop ep dates).1 := by
  intro dates
  induction dates with
  | nil => intro d' hd'; simp [fetchLoop] at hd'
  | cons d rest ih =>
    intro d' hd'
    unfold fetchLoop at hd' ⊢
    cases hf : fetchDay ep d with
    | none => rw [hf] at hd'; simp at hd'
    | some m =>
      rw [hf] at hd'
      simp only [List.map_cons, List.mem_cons] at hd'
      rcases hd' with hd' | hd'
      · have hdate : (writeCSV d m).date = d := rfl
        rw [hdate] at hd'
        subst hd'
        exact ⟨m, hf, by simp⟩
      · obtain ⟨m', hm', hmem⟩ := ih d' hd'
        exact ⟨m', hm', by simp [hmem]⟩

/-- C3: in the fetch loop over `pre ++ D :: post`, if every date in `pre`
succeeds and `D`'s fetch fails, then exactly the dates of `pre` have record
files (each written from its successful `fetchDay`, i.e. written only after
all of that date's 24 window queries and per-agent queries succeeded), the run
is marked aborted, no file is written for `D` or for any later date, and in
general a date has a file only if its complete `fetchDay` — hence every one of
its `queriesOf` requests — succeeded. -/
theorem record_written_only_after_full_success (ep : Endpoint) (pre post : List Nat)
    (D : Nat) (hpre : ∀ d ∈ pre, (fetchDay ep d).isSome)
    (hD : fetchDay ep D = none) (hnotin : D ∉ pre) :
    (fetchLoop ep (pre ++ D :: post)).1.map CsvFile.date = pre
    ∧ (fetchLoop ep (pre ++ D :: post)).2 = some ()
    ∧ D ∉ (fetchLoop ep (pre ++ D :: post)).1.map CsvFile.date
    ∧ (∀ (dates : List Nat) (d' : Nat),
        d' ∈ (fetchLoop ep dates).1.map CsvFile.date →
        ∃ m, fetchDay ep d' = some m ∧ writeCSV d' m ∈ (fetchLoop ep dates).1
          ∧ ∀ q ∈ queriesOf d', (runRequest (ep q) 0).isSome) := by
  have hmain : (fetchLoop ep (pre ++ D :: post)).1.map CsvFile.date = pre
      ∧ (fetchLoop ep (pre ++ D :: post)).2 = some () := by
    clear hnotin
    induction pre with
    | nil =>
      simp only [List.nil_append]
      unfold fetchLoop
      rw [hD]
      exact ⟨rfl, rfl⟩
    | cons d rest ih =>
      have hd : (fetchDay ep d).isSome := hpre d (List.mem_cons_self _ _)
      obtain ⟨m, hm⟩ := Option.isSome_iff_exists.mp hd
      have ihr := ih (fun d' hd' => hpre d' (List.mem_cons_of_mem _ hd'))
      simp only [List.cons_append]
      unfold fetchLoop
      rw [hm]
      simp only [List.map_cons]
      exact ⟨by rw [ihr.1]; rfl, ihr.2⟩
  refine ⟨hmain.1, hmain.2, ?_, ?_⟩
  · rw [hmain.1]; exact hnotin
  · intro dates d' hd'
    obtain ⟨m, hm, hmem⟩ := fetchLoop_mem_of_date ep dates d' hd'
    exact ⟨m, hm, hmem, fetchDay_queries_succeed ep d' m hm⟩


set_option maxHeartbeats 4000000 in
/-- Witness for `record_written_only_after_full_success`: dates `[0, 1, 2]`
where day 0 succeeds and day 1 fails — only day 0's file is written. -/
theorem record_written_only_after_full_success_witness :
    (fetchLoop epFailsDay1 ([0] ++ 1 :: [2])).1.map CsvFile.date = [0]
    ∧ (fetchLoop epFailsDay1 ([0] ++ 1 :: [2])).2 = some ()
    ∧ 1 ∉ (fetchLoop epFailsDay1 ([0] ++ 1 :: [2])).1.map CsvFile.date := by
  have h := record_written_only_after_full_success epFailsDay1 [0] [2] 1
    (by decide) (by decide) (by decide)
  exact ⟨h.1, h.2.1, h.2.2.1⟩

/-! ## Degenerate CLI range (C10) -/

/-- C10: if the collector is started (with a token present) on a start date
strictly after the end date, argument parsing yields the empty date list (it
is not the usage-error path), and the fetch loop — for every endpoint, so no
query is ever issued — writes no files and finishes without an abort. -/
theorem reversed_range_is_noop (ep : Endpoint) (s e : Nat) (h : e < s) :
    parseDateRange [s, e] = .ok []
    ∧ mainFetch true ep [s, e] = .ok ([], none) := by
  have h0 : rangeClosed s e = [] := by
    unfold rangeClosed
    have he : e + 1 - s = 0 := by omega
    rw [he]
    rfl
  have hp : parseDateRange [s, e] = .ok [] := by
    unfold parseDateRange
    simp only [List.headD]
    rw [h0]
  refine ⟨hp, ?_⟩
  unfold mainFetch
  rw [if_pos rfl, hp]
  rfl

/-- Witness for `reversed_range_is_noop` at the concrete range `5..3`. -/
theorem reversed_range_is_noop_witness :
    parseDateRange [5, 3] = .ok []
    ∧ mainFetch true epConst [5, 3] = .ok ([], none) :=
  reversed_range_is_noop epConst 5 3 (by decide)

/-! ## Sorting and set lemmas -/

theorem mem_insertLe {α : Type} (le : α → α → Bool) (x a : α) (l : List α) :
    a ∈ insertLe le x l ↔ a = x ∨ a ∈ l := by
  induction l with
  | nil => simp [insertLe]
  | cons y ys ih =>
    unfold insertLe
    by_cases h : le x y = true
    · simp [h]
    · simp only [Bool.not_eq_true] at h
      simp [h, ih]
      tauto

theorem mem_insSort {α : Type} (le : α → α → Bool) (a : α) (l : List α) :
    a ∈ insSort le l ↔ a ∈ l := by
  induction l with
  | nil => simp [insSort]
  | cons x xs ih => simp [insSort, mem_insertLe, ih]

theorem mem_jsSetAdd (l : List String) (x y : String) :
    y ∈ jsSetAdd l x ↔ y ∈ l ∨ y = x := by
  unfold jsSetAdd
  by_cases h : x ∈ l
  · simp only [h, if_true]
    constructor
    · exact Or.inl
    · rintro (hy | rfl)
      · exact hy
      · exact h
  · simp [h]

/-! ## Reporter load-phase lemmas -/

theorem pointOf_isSome_iff (f : RFile) : (pointOf f).isSome = fUsable f := by
  unfold pointOf fUsable totalOf
  cases jget (parseFileR f).2 "total" with
  | none => rfl
  | some t => by_cases h : t = 0 <;> simp [h]

theorem pointOf_date (f : RFile) (p : DataPoint) (h : pointOf f = some p) :
    p.date = fileDate f := by
  unfold pointOf at h
  cases ht : jget (parseFileR f).2 "total" with
  | none => rw [ht] at h; exact absurd h (by simp)
  | some t =>
    rw [ht] at h
    have h' : (if t = 0 then (none : Option DataPoint)
        else some ⟨(parseFileR f).1,
          ((sumKeys (parseFileR f).2 chartAgentKeys : ℚ) / (t : ℚ)) * 100, t⟩) = some p := h
    by_cases h0 : t = 0
    · rw [if_pos h0] at h'; exact absurd h' (by simp)
    · rw [if_neg h0] at h'
      have := Option.some.inj h'
      rw [← this]
      rfl

theorem mem_loadPoints (fs : List RFile) (d : String) :
    d ∈ (loadPoints fs).map DataPoint.date ↔
      ∃ f ∈ fs, fUsable f = true ∧ fileDate f = d := by
  induction fs with
  | nil => simp [loadPoints]
  | cons f fs ih =>
    unfold loadPoints
    cases hp : pointOf f with
    | none =>
      have hu : fUsable f = false := by rw [← pointOf_isSome_iff, hp]; rfl
      simp [ih, hu]
    | some p =>
      have hu : fUsable f = true := by rw [← pointOf_isSome_iff, hp]; rfl
      have hd := pointOf_date f p hp
      simp only [List.map_cons, List.mem_cons, ih, List.mem_cons]
      constructor
      · rintro (rfl | hr)
        · exact ⟨f, Or.inl rfl, hu, hd.symm⟩
        · obtain ⟨g, hg, h1, h2⟩ := hr
          exact ⟨g, Or.inr hg, h1, h2⟩
      · rintro ⟨g, (rfl | hg), h1, h2⟩
        · exact Or.inl (by rw [hd, h2])
        · exact Or.inr ⟨g, hg, h1, h2⟩

theorem mem_foldl_tstep_allDates (fs : List RFile) :
    ∀ (st : TState) (d : String),
      d ∈ (fs.foldl tstep st).allDates ↔
        d ∈ st.allDates ∨ ∃ f ∈ fs, fUsable f = true ∧ fileDate f = d := by
  induction fs with
  | nil => intro st d; simp
  | cons f fs ih =>
    intro st d
    simp only [List.foldl_cons]
    rw [ih]
    have hstep : (tstep st f).allDates =
        (if fUsable f then jsSetAdd st.allDates (fileDate f) else st.allDates) := by
      unfold tstep fUsable totalOf fileDate
      cases ht : jget (parseFileR f).2 "total" with
      | none => rfl
      | some t =>
        by_cases h0 : t = 0
        · subst h0; rfl
        · simp [h0]
    rw [hstep]
    by_cases hu : fUsable f = true
    · rw [if_pos hu]
      rw [mem_jsSetAdd]
      constructor
      · rintro ((hd | hd) | hr)
        · exact Or.inl hd
        · exact Or.inr ⟨f, List.mem_cons_self _ _, hu, hd.symm⟩
        · obtain ⟨g, hg, h1, h2⟩ := hr
          exact Or.inr ⟨g, List.mem_cons_of_mem _ hg, h1, h2⟩
      · rintro (hd | ⟨g, hg, h1, h2⟩)
        · exact Or.inl (Or.inl hd)
        · rcases List.mem_cons.mp hg with rfl | hg'
          · exact Or.inl (Or.inr h2.symm)
          · exact Or.inr ⟨g, hg', h1, h2⟩
    · simp only [Bool.not_eq_true] at hu
      rw [if_neg (by rw [hu]; exact Bool.false_ne_true)]
      constructor
      · rintro (hd | ⟨g, hg, h1, h2⟩)
        · exact Or.inl hd
        · exact Or.inr ⟨g, List.mem_cons_of_mem _ hg, h1, h2⟩
      · rintro (hd | ⟨g, hg, h1, h2⟩)
        · exact Or.inl hd
        · rcases List.mem_cons.mp hg with rfl | hg'
          · rw [hu] at h1; exact absurd h1 Bool.false_ne_true
          · exact Or.inr ⟨g, hg', h1, h2⟩

/-- C4: a date appears in the chart's (sorted) data series, or among the
trend table's collected dates (from which its months and cells are built),
exactly when some record file with that date is usable — has a present,
non-zero `total`. In particular the claim's example record with rows
`(date,total,0)` and `(date,claude,5)` contributes no point and no date. -/
theorem zero_total_dates_excluded (fs : List RFile) (d : String) :
    (d ∈ (loadData fs).map DataPoint.date ↔
        ∃ f ∈ fs, fUsable f = true ∧ fileDate f = d)
    ∧ (d ∈ (tstate fs).allDates ↔
        ∃ f ∈ fs, fUsable f = true ∧ fileDate f = d)
    ∧ loadData [demoZeroFile] = []
    ∧ (tstate [demoZeroFile]).allDates = [] := by
  refine ⟨?_, ?_, by decide, by decide⟩
  · rw [← mem_loadPoints]
    unfold loadData
    simp [List.mem_map, mem_insSort]
  · unfold tstate
    rw [mem_foldl_tstep_allDates]
    simp

/-! ## Percentage lemmas (C5) -/

theorem foldl_add_eq_sum {α M : Type} [AddMonoid M] (g : α → M) :
    ∀ (l : List α) (init : M),
      l.foldl (fun s x => s + g x) init = init + (l.map g).sum := by
  intro l
  induction l with
  | nil => intro init; simp
  | cons x xs ih => intro init; simp [ih, add_assoc]

theorem sumKeys_eq_sum (rows : JMap Nat) (ks : List String) :
    sumKeys rows ks = (ks.map (fun k => (jget rows k).getD 0)).sum := by
  unfold sumKeys
  rw [foldl_add_eq_sum]
  exact Nat.zero_add _

theorem sumKeys_cast (rows : JMap Nat) (ks : List String) :
    (sumKeys rows ks : ℚ) = (ks.map (fun k => ((jget rows k).getD 0 : ℚ))).sum := by
  rw [sumKeys_eq_sum, Nat.cast_list_sum, List.map_map]
  rfl

theorem sum_over_present_keys (rows : JMap Nat) (ks : List String) :
    (ks.map (fun k => ((jget rows k).getD 0 : ℚ))).sum =
      ((ks.filter (fun k => (jget rows k).isSome)).map
        (fun k => ((jget rows k).getD 0 : ℚ))).sum := by
  induction ks with
  | nil => rfl
  | cons k ks ih =>
    by_cases h : (jget rows k).isSome
    · simp [List.filter_cons, h, ih]
    · have h0 : jget rows k = none := by
        cases he : jget rows k with
        | none => rfl
        | some v => rw [he] at h; simp at h
      simp [List.filter_cons, h, ih, h0]

theorem perAgentFold_stable (rows : JMap Nat) (t : Nat) (date : String) (k : String) :
    ∀ (as' : List ChartAgent) (pa : JMap (JMap ℚ)),
      (∀ a ∈ as', a.name ≠ k) →
      jget (as'.foldl (perAgentStep rows t date) pa) k = jget pa k := by
  intro as'
  induction as' with
  | nil => intro pa _; rfl
  | cons a rest ih =>
    intro pa hk
    simp only [List.foldl_cons]
    rw [ih _ (fun a' ha' => hk a' (List.mem_cons_of_mem _ ha'))]
    unfold perAgentStep
    rw [jget_jset_ne]
    exact fun hkk => (hk a (List.mem_cons_self _ _)) hkk.symm

theorem perAgentFold_get (rows : JMap Nat) (t : Nat) (date : String) :
    ∀ (as' : List ChartAgent) (pa : JMap (JMap ℚ)),
      as'.Pairwise (fun x y => x.name ≠ y.name) →
      ∀ a ∈ as', jget (as'.foldl (perAgentStep rows t date) pa) a.name =
        some (jset ((jget pa a.name).getD []) date
          ((sumKeys rows a.keys : ℚ) / (t : ℚ) * 100)) := by
  intro as'
  induction as' with
  | nil => intro pa _ a ha; exact absurd ha (List.not_mem_nil a)
  | cons a0 rest ih =>
    intro pa hpw a ha
    have hpw' := List.pairwise_cons.mp hpw
    simp only [List.foldl_cons]
    rcases List.mem_cons.mp ha with rfl | hmem
    · rw [perAgentFold_stable rows t date a.name rest _
        (fun a' ha' => (hpw'.1 a' ha').symm)]
      unfold perAgentStep
      rw [jget_jset_self]
    · rw [ih _ hpw'.2 a hmem]
      unfold perAgentStep
      rw [jget_jset_ne _ _ _ _ (Ne.symm (hpw'.1 a hmem))]

set_option maxHeartbeats 1000000 in
theorem chartAgents_names_distinct :
    CHART_AGENTS.Pairwise (fun x y => x.name ≠ y.name) := by decide

theorem tstep_usable (st : TState) (f : RFile) (t : Nat)
    (h1 : jget (parseFileR f).2 "total" = some t) (h2 : t ≠ 0) :
    tstep st f =
      ⟨CHART_AGENTS.foldl (perAgentStep (parseFileR f).2 t (parseFileR f).1) st.perAgent,
       jset st.combined (parseFileR f).1
         ((sumKeys (parseFileR f).2 chartAgentKeys : ℚ) / (t : ℚ) * 100),
       jsSetAdd st.allDates (parseFileR f).1⟩ := by
  unfold tstep
  rw [h1]
  show (if t = 0 then st else _) = _
  rw [if_neg h2]

/-- C5: for a usable record with total `t > 0`, the chart point's percentage,
the stored combined percentage, and every display agent's stored percentage
for that date equal `(sum of the relevant keys' counts / t) * 100`; and in any
such sum a key absent from the record contributes `0` (the sum equals the sum
over the present keys only). -/
theorem percentage_formula (f : RFile) (t : Nat)
    (h1 : totalOf f = some t) (h2 : t ≠ 0) :
    (∃ p, pointOf f = some p ∧ p.date = fileDate f ∧
      p.percentage =
        ((chartAgentKeys.map (fun k => ((jget (parseFileR f).2 k).getD 0 : ℚ))).sum
          / (t : ℚ)) * 100)
    ∧ jget (tstate [f]).combined (fileDate f) =
        some (((chartAgentKeys.map (fun k => ((jget (parseFileR f).2 k).getD 0 : ℚ))).sum
          / (t : ℚ)) * 100)
    ∧ (∀ a ∈ CHART_AGENTS, ∃ byDate,
        jget (tstate [f]).perAgent a.name = some byDate ∧
        jget byDate (fileDate f) =
          some (((a.keys.map (fun k => ((jget (parseFileR f).2 k).getD 0 : ℚ))).sum
            / (t : ℚ)) * 100))
    ∧ (∀ ks : List String,
        (ks.map (fun k => ((jget (parseFileR f).2 k).getD 0 : ℚ))).sum =
          ((ks.filter (fun k => (jget (parseFileR f).2 k).isSome)).map
            (fun k => ((jget (parseFileR f).2 k).getD 0 : ℚ))).sum) := by
  unfold totalOf at h1
  have hstate : tstate [f] = tstep ⟨[], [], []⟩ f := rfl
  have ht := tstep_usable ⟨[], [], []⟩ f t h1 h2
  have hcomb : (tstate [f]).combined =
      jset ([] : JMap ℚ) (parseFileR f).1
        ((sumKeys (parseFileR f).2 chartAgentKeys : ℚ) / (t : ℚ) * 100) := by
    rw [hstate, ht]
  have hpa : (tstate [f]).perAgent =
      CHART_AGENTS.foldl (perAgentStep (parseFileR f).2 t (parseFileR f).1)
        ([] : JMap (JMap ℚ)) := by
    rw [hstate, ht]
  refine ⟨?_, ?_, ?_, fun ks => sum_over_present_keys (parseFileR f).2 ks⟩
  · refine ⟨⟨(parseFileR f).1,
      ((sumKeys (parseFileR f).2 chartAgentKeys : ℚ) / (t : ℚ)) * 100, t⟩, ?_, rfl, ?_⟩
    · unfold pointOf
      rw [h1]
      show (if t = 0 then none else _) = _
      rw [if_neg h2]
    · show (sumKeys (parseFileR f).2 chartAgentKeys : ℚ) / (t : ℚ) * 100 = _
      rw [sumKeys_cast]
  · rw [hcomb]
    unfold fileDate
    rw [jget_jset_self, sumKeys_cast]
  · intro a ha
    refine ⟨jset (((jget ([] : JMap (JMap ℚ)) a.name)).getD []) (parseFileR f).1
      ((sumKeys (parseFileR f).2 a.keys : ℚ) / (t : ℚ) * 100), ?_, ?_⟩
    · rw [hpa]
      exact perAgentFold_get (parseFileR f).2 t (parseFileR f).1 CHART_AGENTS
        ([] : JMap (JMap ℚ)) chartAgents_names_distinct a ha
    · unfold fileDate
      rw [jget_jset_self, sumKeys_cast]

/-- Witness for `percentage_formula` on the January demo record
(total 100, claude 5). -/
theorem percentage_formula_witness :
    ∃ p, pointOf demoJan = some p ∧ p.date = fileDate demoJan ∧
      p.percentage =
        ((chartAgentKeys.map (fun k => ((jget (parseFileR demoJan).2 k).getD 0 : ℚ))).sum
          / ((100 : Nat) : ℚ)) * 100 :=
  (percentage_formula demoJan 100 (by decide) (by decide)).1

/-! ## Month aggregation lemmas (C6) -/

theorem mem_dedupAux (x : String) :
    ∀ (l seen : List String), x ∈ dedupAux seen l ↔ x ∈ l ∧ x ∉ seen := by
  intro l
  induction l with
  | nil => intro seen; simp [dedupAux]
  | cons y ys ih =>
    intro seen
    unfold dedupAux
    by_cases h : y ∈ seen
    · rw [if_pos h, ih]
      constructor
      · rintro ⟨hx, hs⟩; exact ⟨List.mem_cons_of_mem _ hx, hs⟩
      · rintro ⟨hx, hs⟩
        rcases List.mem_cons.mp hx with rfl | hx'
        · exact absurd h hs
        · exact ⟨hx', hs⟩
    · rw [if_neg h]
      simp only [List.mem_cons, ih]
      constructor
      · rintro (rfl | ⟨hx, hs⟩)
        · exact ⟨Or.inl rfl, h⟩
        · exact ⟨Or.inr hx, fun hxs => hs (Or.inr hxs)⟩
      · rintro ⟨(rfl | hx), hs⟩
        · exact Or.inl rfl
        · by_cases hxy : x = y
          · exact Or.inl hxy
          · exact Or.inr ⟨hx, fun hmem => by
              rcases hmem with h1 | h2
              · exact hxy h1
              · exact hs h2⟩

theorem mem_months (fs : List RFile) (m : String) :
    m ∈ months fs ↔ ∃ d ∈ (tstate fs).allDates, take7 d = m := by
  unfold months
  rw [mem_insSort, mem_dedupAux]
  simp only [List.not_mem_nil, not_false_iff, and_true, List.mem_map]
  unfold sortedDates
  constructor
  · rintro ⟨d, hd, hm⟩
    exact ⟨d, (mem_insSort _ _ _).mp hd, hm⟩
  · rintro ⟨d, hd, hm⟩
    exact ⟨d, (mem_insSort _ _ _).mpr hd, hm⟩

theorem isPre_take (s : List Char) (n : Nat) : isPre (s.take n) s = true := by
  induction s generalizing n with
  | nil => cases n <;> rfl
  | cons c cs ih =>
    cases n with
    | zero => rfl
    | succ n => simp [List.take, isPre, ih]

theorem strStarts_take7 (d : String) : strStarts d (take7 d) = true := by
  unfold strStarts take7
  exact isPre_take d.data 7

theorem mem_monthDates (fs : List RFile) (m d : String) :
    d ∈ monthDates fs m ↔ d ∈ (tstate fs).allDates ∧ strStarts d m = true := by
  unfold monthDates sortedDates
  rw [List.mem_filter, mem_insSort]

theorem monthAvg_eq_mean (byDate : JMap ℚ) (ds : List String) :
    monthAvg byDate ds =
      ((ds.map (fun d => (jget byDate d).getD 0)).sum) / (ds.length : ℚ) := by
  unfold monthAvg sumPcts
  rw [foldl_add_eq_sum]
  rw [zero_add]

/-- C6 (amended): for every month `M` that appears in the trend table, the
cell denominator `monthDates` is exactly the list of collected (usable) dates
whose string starts with `M`, it is non-empty — so the mean's denominator is
never zero — and every cell value is the arithmetic mean of the per-date
percentages over those dates.  A month with no recorded dates does not get a
placeholder: it does not appear among the table's months at all, because the
month columns are derived from the usable dates themselves. -/
theorem month_cells_are_means (fs : List RFile) (m : String) (h : m ∈ months fs) :
    monthDates fs m ≠ []
    ∧ (∀ d, d ∈ monthDates fs m ↔ d ∈ (tstate fs).allDates ∧ strStarts d m = true)
    ∧ (∀ byDate : JMap ℚ,
        monthAvg byDate (monthDates fs m) =
          ((monthDates fs m).map (fun d => (jget byDate d).getD 0)).sum /
            ((monthDates fs m).length : ℚ))
    ∧ (∀ m' : String, m' ∈ months fs ↔ ∃ d ∈ (tstate fs).allDates, take7 d = m') := by
  refine ⟨?_, mem_monthDates fs m, fun byDate => monthAvg_eq_mean byDate _,
    mem_months fs⟩
  obtain ⟨d, hd, hm⟩ := (mem_months fs m).mp h
  have hmem : d ∈ monthDates fs m :=
    (mem_monthDates fs m d).mpr ⟨hd, by rw [← hm]; exact strStarts_take7 d⟩
  exact List.ne_nil_of_mem hmem

set_option maxHeartbeats 4000000 in
unseal Rat.add Rat.mul Rat.inv in
/-- Counterexample to C6 as stated: with usable records only in January and
March 2026, February 2026 has no recorded dates, yet no placeholder cell is
rendered for it — the month simply has no column (`months` contains only the
two represented months, and the Claude row has exactly two cells, neither of
which is the dash placeholder). -/
theorem month_gap_not_rendered :
    months [demoJan, demoMar] = ["2026-01", "2026-03"]
    ∧ "2026-02" ∉ months [demoJan, demoMar]
    ∧ (∀ d ∈ (tstate [demoJan, demoMar]).allDates, strStarts d "2026-02" = false)
    ∧ agentRowCells [demoJan, demoMar] "Claude Code" = ["5.00%", "5.00%"]
    ∧ combinedCells [demoJan, demoMar] = ["**5.00%**", "**5.00%**"]
    ∧ "-" ∉ agentRowCells [demoJan, demoMar] "Claude Code" := by
  refine ⟨by decide, by decide, by decide, by decide, by decide, by decide⟩

set_option maxHeartbeats 1000000 in
/-- Witness for `month_cells_are_means` at the two-record demo data and the
January column. -/
theorem month_cells_are_means_witness :
    monthDates [demoJan, demoMar] "2026-01" ≠ []
    ∧ (∀ d, d ∈ monthDates [demoJan, demoMar] "2026-01" ↔
        d ∈ (tstate [demoJan, demoMar]).allDates ∧ strStarts d "2026-01" = true) :=
  ⟨(month_cells_are_means [demoJan, demoMar] "2026-01" (by decide)).1,
   (month_cells_are_means [demoJan, demoMar] "2026-01" (by decide)).2.1⟩

/-! ## Epsilon rendering (C9) -/

/-- C9 (amended): in an agent row, a cell whose monthly average is below the
epsilon `0.005` (the rational `1/200`) renders as the dash placeholder and a
cell at or above it renders as the two-decimal percentage; but the combined
`All Agents` row performs no epsilon test — its cells always render as the
bold two-decimal percentage, even below the epsilon. -/
theorem epsilon_rendering (fs : List RFile) (byDate : JMap ℚ) (m : String)
    (h : m ∈ months fs) :
    (monthAvg byDate (monthDates fs m) < 1 / 200 →
      agentCell fs byDate m = "-")
    ∧ (¬ monthAvg byDate (monthDates fs m) < 1 / 200 →
      agentCell fs byDate m = toFixed2 (monthAvg byDate (monthDates fs m)) ++ "%")
    ∧ agentCell fs byDate m ∈ agentCells fs byDate
    ∧ combinedCell fs m =
        "**" ++ toFixed2 (monthAvg (tstate fs).combined (monthDates fs m)) ++ "%**"
    ∧ combinedCell fs m ∈ combinedCells fs := by
  refine ⟨?_, ?_, ?_, rfl, ?_⟩
  · intro hlt
    unfold agentCell
    rw [if_pos hlt]
  · intro hge
    unfold agentCell
    rw [if_neg hge]
  · exact List.mem_map.mpr ⟨m, h, rfl⟩
  · exact List.mem_map.mpr ⟨m, h, rfl⟩

set_option maxHeartbeats 4000000 in
unseal Rat.add Rat.mul Rat.inv in
/-- Counterexample to C9 as stated: with one record of total 100000 and a
single agent count 1, the combined monthly average is 0.001% — below the
0.005 epsilon — yet the combined row renders it as `**0.00%**`, not as the
dash placeholder (which the same data does produce in the agent row). -/
theorem combined_cell_below_epsilon_not_dash :
    monthAvg (tstate [demoTiny]).combined (monthDates [demoTiny] "2026-01") < 1 / 200
    ∧ combinedCells [demoTiny] = ["**0.00%**"]
    ∧ "-" ∉ combinedCells [demoTiny]
    ∧ agentRowCells [demoTiny] "Claude Code" = ["-"] := by
  refine ⟨by decide, by decide, by decide, by decide⟩

set_option maxHeartbeats 4000000 in
unseal Rat.add Rat.mul Rat.inv in
/-- Witness for `epsilon_rendering` on the tiny-percentage demo record: the
Claude cell for January renders as the dash. -/
theorem epsilon_rendering_witness :
    agentCell [demoTiny] ((jget (tstate [demoTiny]).perAgent "Claude Code").getD [])
      "2026-01" = "-" :=
  (epsilon_rendering [demoTiny]
    ((jget (tstate [demoTiny]).perAgent "Claude Code").getD []) "2026-01"
    (by decide)).1 (by decide)

/-! ## Splice lemmas (C7, C8) -/

theorem isPre_append_self (p r : List Char) : isPre p (p ++ r) = true := by
  induction p with
  | nil => rfl
  | cons c p ih => simp [isPre, ih]

theorem isPre_nil (p : List Char) (h : isPre p [] = true) : p = [] := by
  cases p with
  | nil => rfl
  | cons c p => simp [isPre] at h

theorem isPre_iff_exists (p : List Char) :
    ∀ s, isPre p s = true ↔ ∃ u, s = p ++ u := by
  induction p with
  | nil => intro s; simp [isPre]
  | cons c p ih =>
    intro s
    cases s with
    | nil =>
      simp [isPre]
    | cons d s' =>
      simp only [isPre, Bool.and_eq_true, decide_eq_true_eq, ih]
      constructor
      · rintro ⟨rfl, u, rfl⟩
        exact ⟨u, rfl⟩
      · rintro ⟨u, hu⟩
        injection hu with h1 h2
        exact ⟨h1.symm, u, h2⟩

theorem isPre_stable (p : List Char) :
    ∀ (x y : List Char), p.length ≤ x.length → isPre p (x ++ y) = isPre p x := by
  induction p with
  | nil => intro x y _; rfl
  | cons c p ih =>
    intro x y h
    cases x with
    | nil => simp at h
    | cons d x' =>
      simp only [List.cons_append, isPre, List.append_eq]
      rw [ih x' y (by simpa using h)]

theorem splitOnce_self (pat r : List Char) : splitOnce pat (pat ++ r) = some ([], r) := by
  cases pat with
  | nil =>
    cases r with
    | nil => rfl
    | cons c rest =>
      show splitOnce [] (c :: rest) = some ([], c :: rest)
      unfold splitOnce
      rw [if_pos (by rfl)]
      rfl
  | cons c p' =>
    show splitOnce (c :: p') (c :: (p' ++ r)) = some ([], r)
    unfold splitOnce
    rw [if_pos (by simpa using isPre_append_self (c :: p') r)]
    simp only [List.length_cons, List.drop_succ_cons]
    rw [List.drop_left]

theorem splitOnce_decomp (pat : List Char) :
    ∀ (s a b : List Char), splitOnce pat s = some (a, b) → s = a ++ pat ++ b := by
  intro s
  induction s with
  | nil =>
    intro a b h
    unfold splitOnce at h
    by_cases hp : isPre pat [] = true
    · rw [if_pos hp] at h
      have hpat := isPre_nil pat hp
      injection h with h'
      injection h' with h1 h2
      subst hpat
      rw [← h1, ← h2]
      rfl
    · rw [if_neg hp] at h
      exact absurd h (by simp)
  | cons c rest ih =>
    intro a b h
    unfold splitOnce at h
    by_cases hp : isPre pat (c :: rest) = true
    · rw [if_pos hp] at h
      injection h with h'
      injection h' with h1 h2
      obtain ⟨u, hu⟩ := (isPre_iff_exists pat (c :: rest)).mp hp
      rw [← h1, ← h2, hu, List.nil_append, List.drop_left]
    · rw [if_neg hp] at h
      cases hs : splitOnce pat rest with
      | none => rw [hs] at h; exact absurd h (by simp)
      | some pr =>
        obtain ⟨a', b'⟩ := pr
        rw [hs] at h
        injection h with h'
        injection h' with h1 h2
        rw [← h1, ← h2]
        have := ih a' b' hs
        rw [List.cons_append, List.cons_append, ← this]

theorem splitOnce_stable (pat : List Char) :
    ∀ (a r r' : List Char), splitOnce pat (a ++ pat ++ r) = some (a, r) →
      splitOnce pat (a ++ pat ++ r') = some (a, r') := by
  intro a
  induction a with
  | nil =>
    intro r r' _
    simpa using splitOnce_self pat r'
  | cons c a' ih =>
    intro r r' h
    have hform : ∀ z : List Char, (c :: a') ++ pat ++ z = c :: (a' ++ pat ++ z) := by
      intro z
      simp
    rw [hform r] at h
    rw [hform r']
    have hlen : pat.length ≤ ((a' ++ pat) : List Char).length := by
      simp
    have hpre : isPre pat (c :: (a' ++ pat ++ r)) = isPre pat (c :: (a' ++ pat ++ r')) := by
      have e1 : (c :: (a' ++ pat ++ r) : List Char) = (c :: (a' ++ pat)) ++ r := by simp
      have e2 : (c :: (a' ++ pat ++ r') : List Char) = (c :: (a' ++ pat)) ++ r' := by simp
      rw [e1, e2, isPre_stable pat _ r (by simpa using Nat.le_succ_of_le hlen),
        isPre_stable pat _ r' (by simpa using Nat.le_succ_of_le hlen)]
    unfold splitOnce at h ⊢
    by_cases hp : isPre pat (c :: (a' ++ pat ++ r)) = true
    · rw [if_pos hp] at h
      injection h with h'
      injection h' with h1 _
      exact absurd h1.symm (by simp)
    · rw [if_neg hp] at h
      rw [if_neg (by rw [← hpre]; exact hp)]
      cases hs : splitOnce pat (a' ++ pat ++ r) with
      | none => rw [hs] at h; exact absurd h (by simp)
      | some pr =>
        obtain ⟨x, y⟩ := pr
        rw [hs] at h
        injection h with h'
        injection h' with h1 h2
        injection h1 with _ hx
        have hs' : splitOnce pat (a' ++ pat ++ r) = some (a', r) := by
          rw [hs, hx, h2]
        rw [ih r r' hs']

theorem splitOnce_no_head (c₀ : Char) (p' : List Char) :
    ∀ (x y : List Char), (∀ ch ∈ x, ch ≠ c₀) →
      splitOnce (c₀ :: p') (x ++ (c₀ :: p') ++ y) = some (x, y) := by
  intro x
  induction x with
  | nil =>
    intro y _
    simpa using splitOnce_self (c₀ :: p') y
  | cons c x' ih =>
    intro y hx
    have hform : (c :: x') ++ (c₀ :: p') ++ y = c :: (x' ++ (c₀ :: p') ++ y) := by simp
    rw [hform]
    unfold splitOnce
    have hc : c ≠ c₀ := hx c (List.mem_cons_self _ _)
    have hp : isPre (c₀ :: p') (c :: (x' ++ (c₀ :: p') ++ y)) = false := by
      simp [isPre, Ne.symm hc]
    rw [if_neg (by rw [hp]; exact Bool.false_ne_true)]
    rw [ih y (fun ch hch => hx ch (List.mem_cons_of_mem _ hch))]

theorem spliceTable_eq_of_splits (doc t a rest b c : List Char)
    (h1 : splitOnce startMark doc = some (a, rest))
    (h2 : splitOnce endMark rest = some (b, c)) :
    spliceTable doc t = a ++ startMark ++ ('\n' :: (t ++ ('\n' :: endMark))) ++ c := by
  unfold spliceTable
  rw [h1]
  show (match splitOnce endMark rest with
    | none => doc
    | some (_b, c) => a ++ startMark ++ ('\n' :: (t ++ ('\n' :: endMark))) ++ c) = _
  rw [h2]

theorem spliceTable_eq_self_of_no_start (doc t : List Char)
    (h1 : splitOnce startMark doc = none) : spliceTable doc t = doc := by
  unfold spliceTable
  rw [h1]

theorem spliceTable_eq_self_of_no_end (doc t a rest : List Char)
    (h1 : splitOnce startMark doc = some (a, rest))
    (h2 : splitOnce endMark rest = none) : spliceTable doc t = doc := by
  unfold spliceTable
  rw [h1]
  show (match splitOnce endMark rest with
    | none => doc
    | some (_b, c) => a ++ startMark ++ ('\n' :: (t ++ ('\n' :: endMark))) ++ c) = _
  rw [h2]

/-- C7: the README table splice is idempotent: as long as the spliced-in table
text contains no `<` character (true of every generated table, whose cells are
agent names, month labels, percentages and dashes), applying the splice twice
with the same table yields the same document as applying it once. -/
theorem spliceTable_idempotent (doc t : List Char) (ht : ∀ ch ∈ t, ch ≠ '<') :
    spliceTable (spliceTable doc t) t = spliceTable doc t := by
  cases h1 : splitOnce startMark doc with
  | none =>
    have e := spliceTable_eq_self_of_no_start doc t h1
    rw [e, e]
  | some pr =>
    obtain ⟨a, rest⟩ := pr
    cases h2 : splitOnce endMark rest with
    | none =>
      have e := spliceTable_eq_self_of_no_end doc t a rest h1 h2
      rw [e, e]
    | some pr2 =>
      obtain ⟨b, c⟩ := pr2
      have hdoc := splitOnce_decomp startMark doc a rest h1
      have e := spliceTable_eq_of_splits doc t a rest b c h1 h2
      rw [e]
      -- the respliced document, reassociated around the inserted end sentinel
      have hR : a ++ startMark ++ ('\n' :: (t ++ ('\n' :: endMark))) ++ c =
          a ++ startMark ++ (('\n' :: (t ++ ['\n'])) ++ (endMark ++ c)) := by
        simp
      have h1' : splitOnce startMark (a ++ startMark ++ rest) = some (a, rest) := by
        rw [← hdoc]; exact h1
      have hstep1 : splitOnce startMark
          (a ++ startMark ++ (('\n' :: (t ++ ['\n'])) ++ (endMark ++ c))) =
          some (a, ('\n' :: (t ++ ['\n'])) ++ (endMark ++ c)) :=
        splitOnce_stable startMark a rest (('\n' :: (t ++ ['\n'])) ++ (endMark ++ c)) h1'
      have hxch : ∀ ch ∈ ('\n' :: (t ++ ['\n']) : List Char), ch ≠ '<' := by
        intro ch hch
        rcases List.mem_cons.mp hch with rfl | hch'
        · decide
        · rcases List.mem_append.mp hch' with hl | hr
          · exact ht ch hl
          · have : ch = '\n' := List.mem_singleton.mp hr
            subst this
            decide
      have hem : endMark = '<' :: "!-- recent-table-end -->".data := rfl
      have hstep2 : splitOnce endMark
          (('\n' :: (t ++ ['\n'])) ++ (endMark ++ c)) =
          some ('\n' :: (t ++ ['\n']), c) := by
        rw [hem]
        have he2 : ('\n' :: (t ++ ['\n'])) ++ (('<' :: "!-- recent-table-end -->".data) ++ c) =
            ('\n' :: (t ++ ['\n'])) ++ ('<' :: "!-- recent-table-end -->".data) ++ c := by
          simp
        rw [he2]
        exact splitOnce_no_head '<' "!-- recent-table-end -->".data
          ('\n' :: (t ++ ['\n'])) c hxch
      rw [hR]
      rw [spliceTable_eq_of_splits _ t a (('\n' :: (t ++ ['\n'])) ++ (endMark ++ c))
        ('\n' :: (t ++ ['\n'])) c hstep1 hstep2]
      exact hR

/-- Witness for `spliceTable_idempotent` on the concrete demo document and
table. -/
theorem spliceTable_idempotent_witness :
    spliceTable (spliceTable demoDoc demoTable) demoTable =
      spliceTable demoDoc demoTable :=
  spliceTable_idempotent demoDoc demoTable (by decide)

/-- C8: when the document splits at the leftmost start sentinel and then at
the earliest following end sentinel (the regex' first match), the splice
rewrites exactly the bytes between the two sentinels: the document is
`a ++ start ++ b ++ end ++ c`, and the result is
`a ++ start ++ "\n" ++ table ++ "\n" ++ end ++ c` — the prefix `a`, both
sentinel comments, and the suffix `c` are preserved byte for byte. -/
theorem spliceTable_frame (doc t a rest b c : List Char)
    (h1 : splitOnce startMark doc = some (a, rest))
    (h2 : splitOnce endMark rest = some (b, c)) :
    doc = a ++ startMark ++ b ++ endMark ++ c
    ∧ spliceTable doc t = a ++ startMark ++ ('\n' :: (t ++ ('\n' :: endMark))) ++ c := by
  have hd1 := splitOnce_decomp startMark doc a rest h1
  have hd2 := splitOnce_decomp endMark rest b c h2
  constructor
  · rw [hd1, hd2]
    simp
  · exact spliceTable_eq_of_splits doc t a rest b c h1 h2

set_option maxHeartbeats 1000000 in
/-- Witness for `spliceTable_frame` on the concrete demo document. -/
theorem spliceTable_frame_witness :
    demoDoc = demoDocA ++ startMark ++ demoDocB ++ endMark ++ demoDocC
    ∧ spliceTable demoDoc demoTable =
        demoDocA ++ startMark ++ ('\n' :: (demoTable ++ ('\n' :: endMark))) ++ demoDocC :=
  spliceTable_frame demoDoc demoTable demoDocA (demoDocB ++ endMark ++ demoDocC)
    demoDocB demoDocC (by decide) (by decide)

end Tracker
